import Mathlib

/-!
Verification development for the product-importer repository.

The pipeline (NestJS + Mongoose in the source) is shallowly embedded:
Mongo collections become Lean lists passed and returned explicitly, awaited
collaborator calls become explicit arguments carrying their outcomes,
JavaScript numbers become rationals, and falsy string fields are modelled
as the empty string.  Each definition names the source file and lines it
embeds.
-/

namespace ProductImporter

/-- Image subdocument of a variant (src/schemas/product.schema.ts, interface
Image).  The nullable fields cdnLink and alt are Options. -/
structure Image where
  fileName : String
  cdnLink : Option String
  i : Nat
  alt : Option String
deriving DecidableEq

/-- Attributes subobject of a variant (src/schemas/product.schema.ts,
interface Variant, field attributes). -/
structure VariantAttributes where
  packaging : String
  description : String
deriving DecidableEq

/-- Variant subdocument (src/schemas/product.schema.ts, interface Variant).
JavaScript numbers are modelled as rationals. -/
structure Variant where
  id : String
  available : Bool
  attributes : VariantAttributes
  cost : ℚ
  currency : String
  description : String
  manufacturerItemCode : String
  manufacturerItemId : String
  packaging : String
  price : ℚ
  sku : String
  active : Bool
  images : List Image
  itemCode : String
deriving DecidableEq

/-- Payload of a product document (src/schemas/product.schema.ts, interface
ProductData).  isDeleted is optional in the source with schema default false,
so it is a plain Bool here. -/
structure ProductData where
  name : String
  type : String
  shortDescription : String
  description : String
  vendorId : String
  manufacturerId : String
  storefrontPriceVisibility : String
  variants : List Variant
  isDeleted : Bool
deriving DecidableEq

/-- A draft produced by transformRow and not yet persisted: the object literal
built in src/product/product.service.ts lines 128-167 (docId plus data). -/
structure ProductDraft where
  docId : String
  data : ProductData
deriving DecidableEq

/-- A persisted product document: the draft fields plus the fullData field of
the schema (Schema.Types.Mixed, default null), modelled as an opaque optional
payload.  The Mongo-internal id is not materialised. -/
structure StoredProduct where
  docId : String
  fullData : Option String
  data : ProductData
deriving DecidableEq

/-- A manufacturer collection record (src/schemas/manufacturer.schema.ts). -/
structure ManufacturerRecord where
  manufacturerId : String
  name : String
deriving DecidableEq

/-- A vendor collection record (vendor schema, src/unnamed sources). -/
structure VendorRecord where
  vendorId : String
  name : String
deriving DecidableEq

/-- Shallow embedding of ManufacturerService.getManufacturerId
(src/product/manufacturer.service.ts lines 22-45).  The collection is a list,
returned updated; the nanoid() fresh id is the explicit argument freshId.
The source looks a record up with findOne on the stored manufacturerId field
equal to the decimal string of the numeric key; on a hit it returns that
stored manufacturerId unchanged, on a miss it saves a record whose
manufacturerId field holds the fresh generated id (not the natural key) and
returns the fresh id. -/
def getManufacturerId (freshId : String) (manufacturerId : Nat)
    (manufacturerName : String) (store : List ManufacturerRecord) :
    String × List ManufacturerRecord :=
  match store.find? (fun m => m.manufacturerId == toString manufacturerId) with
  | some m => (m.manufacturerId, store)
  | none => (freshId, store ++ [{ manufacturerId := freshId, name := manufacturerName }])

/-- Shallow embedding of VendorService.getVendorId (src/unnamed/part_001
lines 22-45), identical to the manufacturer resolver up to field names. -/
def getVendorId (freshId : String) (manufacturerId : Nat)
    (manufacturerName : String) (store : List VendorRecord) :
    String × List VendorRecord :=
  match store.find? (fun v => v.vendorId == toString manufacturerId) with
  | some v => (v.vendorId, store)
  | none => (freshId, store ++ [{ vendorId := freshId, name := manufacturerName }])

/-- JavaScript `a || b` on strings with the empty string as the falsy case. -/
def jsOr (a b : String) : String :=
  if a = "" then b else a

/-- JavaScript `a || null` on strings, an Option in the model. -/
def jsOrNull (a : String) : Option String :=
  if a = "" then none else some a

/-- Value denoted by a list of decimal digit characters. -/
def digitsVal (l : List Char) : Nat :=
  l.foldl (fun acc c => 10 * acc + (c.toNat - 48)) 0

/-- Lexical part of the JavaScript parseFloat built-in on plain decimal
notation: leading whitespace is skipped, then an optional sign and the longest
prefix consisting of digits optionally followed by a point and more digits is
read; the rest of the string is ignored.  Result: the negative flag, the
integer digits and the fraction digits; none models NaN (no parsable
prefix). -/
def parseFloatLex (s : String) : Option (Bool × List Char × List Char) :=
  let cs := s.toList.dropWhile (fun c => c == ' ' || c == '\t' || c == '\n' || c == '\r')
  let signAndRest : Bool × List Char :=
    match cs with
    | '-' :: rest => (true, rest)
    | '+' :: rest => (false, rest)
    | _ => (false, cs)
  let intPart := signAndRest.2.takeWhile Char.isDigit
  let afterInt := signAndRest.2.dropWhile Char.isDigit
  let fracPart :=
    match afterInt with
    | '.' :: rest => rest.takeWhile Char.isDigit
    | _ => []
  if intPart.isEmpty && fracPart.isEmpty then none
  else some (signAndRest.1, intPart, fracPart)

/-- Rational value of a parsed decimal prefix. -/
def parsedVal (neg : Bool) (intPart fracPart : List Char) : ℚ :=
  (if neg then (-1 : ℚ) else 1) *
    ((digitsVal intPart : ℚ) + (digitsVal fracPart : ℚ) / (10 : ℚ) ^ fracPart.length)

/-- Models the JavaScript parseFloat built-in: value of the parsed prefix, or
none for NaN. -/
def parseFloatQ (s : String) : Option ℚ :=
  (parseFloatLex s).map fun p => parsedVal p.1 p.2.1 p.2.2

/-- JavaScript `x || 0` applied to an arithmetic result, where none models
NaN: NaN and 0 both fall back to the literal 0. -/
def orZero (x : Option ℚ) : ℚ :=
  match x with
  | none => 0
  | some v => if v = 0 then 0 else v

/-- One parsed record of the tab-separated feed.  Fields the pipeline reads
are listed; a missing (undefined) field is modelled as the empty string. -/
structure Row where
  ProductID : String
  ManufacturerID : String
  ManufacturerName : String
  ProductName : String
  PrimaryCategoryName : String
  ProductDescription : String
  PriceDescription : String
  Availability : String
  PKG : String
  ItemDescription : String
  UnitPrice : String
  ManufacturerItemCode : String
  NDCItemCode : String
  ImageFileName : String
  ItemImageURL : String
deriving DecidableEq

/-- Shallow embedding of ProductService.transformRow
(src/product/product.service.ts lines 109-170).  The awaited collaborator
results are explicit arguments: docId and variantId for the two nanoid()
calls, vendorId and manufacturerId for the two resolver calls, and
enhancedDescription for the enhancer call.  The draft object literal carries
no isDeleted field; the schema default (false) is materialised in the model.
price is `parseFloat(UnitPrice) * 1.2 || 0` and cost is
`parseFloat(UnitPrice) || 0`, with 1.2 the exact rational 6/5. -/
def transformRow (docId variantId vendorId manufacturerId enhancedDescription : String)
    (row : Row) : ProductDraft :=
  { docId := docId,
    data := {
      name := row.ProductName,
      type := "non-inventory",
      shortDescription := jsOr row.PriceDescription "",
      description := enhancedDescription,
      vendorId := vendorId,
      manufacturerId := manufacturerId,
      storefrontPriceVisibility := "members-only",
      variants := [{
        id := variantId,
        available := row.Availability == "Available",
        attributes := { packaging := row.PKG, description := jsOr row.ItemDescription "" },
        cost := orZero (parseFloatQ row.UnitPrice),
        currency := "USD",
        description := jsOr row.ItemDescription "",
        manufacturerItemCode := row.ManufacturerItemCode,
        manufacturerItemId := row.ManufacturerID,
        packaging := row.PKG,
        price := orZero ((parseFloatQ row.UnitPrice).map (fun q => q * (6 / 5 : ℚ))),
        sku := row.ManufacturerItemCode ++ row.PKG,
        active := true,
        images := [{
          fileName := jsOr row.ImageFileName "",
          cdnLink := jsOrNull row.ItemImageURL,
          i := 0,
          alt := jsOrNull row.ProductName }],
        itemCode := jsOr row.NDCItemCode "" }],
      isDeleted := false } }

/-- One choice of a completion response (src/unnamed/part_000). -/
structure CompletionChoice where
  text : String
deriving DecidableEq

/-- The data object of a completion response; the choices array may be
absent. -/
structure CompletionData where
  choices : Option (List CompletionChoice)
deriving DecidableEq

/-- Shallow embedding of DescriptionEnhancerService.enhanceDescription
(src/unnamed/part_000 lines 43-95).  The rate-limiter call and the external
completion call are abstracted by their outcomes: limiterResult (an error is
caught, logged and ignored — fail-open, so the value does not influence the
result) and apiResult, an exception or a response whose data object may be
absent.  A completion error, an absent data or choices object or an empty
choices list falls back to the supplied description (or the empty string when
none was supplied); a present first choice is returned trimmed. -/
def enhanceDescription (limiterResult : Except String Unit)
    (apiResult : Except String (Option CompletionData))
    (name category : String) (description : Option String) : String :=
  match limiterResult, apiResult with
  | _, Except.error _ => description.getD ""
  | _, Except.ok none => description.getD ""
  | _, Except.ok (some d) =>
    match d.choices with
    | some (c :: _) => c.text.trim
    | some [] => description.getD ""
    | none => description.getD ""

/-- Effect of the bulk-write update `$set: product` on a matched document
(src/product/product.service.ts lines 177-183): the top-level fields present
in the draft (docId and the whole data subdocument) are set; fullData is not
named by the draft and keeps its stored value. -/
def setDraft (draft : ProductDraft) (doc : StoredProduct) : StoredProduct :=
  { doc with docId := draft.docId, data := draft.data }

/-- One updateOne item of the bulk write (src/product/product.service.ts
lines 176-191): filter on data.name equal to the draft name, `$set` the draft,
upsert.  The unique index on data.name means at most one document matches; a
match is updated in place, otherwise a new document is inserted carrying the
draft fields and the schema default null for fullData. -/
def upsertOne : List StoredProduct → ProductDraft → List StoredProduct
  | [], draft => [{ docId := draft.docId, fullData := none, data := draft.data }]
  | doc :: rest, draft =>
    if doc.data.name = draft.data.name then setDraft draft doc :: rest
    else doc :: upsertOne rest draft

/-- Shallow embedding of ProductService.upsertBatch
(src/product/product.service.ts lines 176-191): one updateOne per draft,
applied over the store. -/
def upsertBatch (batch : List ProductDraft) (store : List StoredProduct) :
    List StoredProduct :=
  batch.foldl upsertOne store

/-- The store invariant backed by the unique index on data.name
(src/schemas/product.schema.ts line 52): names are pairwise distinct. -/
def uniqNames (store : List StoredProduct) : Prop :=
  (store.map fun d => d.data.name).Nodup

/-- The fixed batch threshold (src/product/product.service.ts line 53). -/
def batchSize : Nat := 1000

/-- State of one import run: the in-memory batch, the imported-name set (a
duplicate-free list), the batches flushed so far (for bookkeeping of the bulk
upserts performed), and the product store. -/
structure RunState where
  batch : List ProductDraft
  imported : List String
  flushes : List (List ProductDraft)
  store : List StoredProduct
deriving DecidableEq

/-- JavaScript Set.add on the imported-name set. -/
def addName (s : List String) (n : String) : List String :=
  if n ∈ s then s else s ++ [n]

/-- One data event of the stream in ProductService.importProducts
(src/product/product.service.ts lines 58-89).  tf abstracts
`await this.transformRow(row)`: a draft, or a thrown per-row error
(Except.error), which the source catches and logs.  A row with a falsy
ManufacturerName is skipped before the transform; a draft with a falsy name
is skipped after it; otherwise the draft is pushed, its name added to the
imported set, and the batch flushed through one bulk upsert and cleared when
its length has reached the threshold. -/
def processRow (tf : Row → Except Unit ProductDraft) (s : RunState) (row : Row) :
    RunState :=
  if row.ManufacturerName = "" then s
  else
    match tf row with
    | Except.error _ => s
    | Except.ok draft =>
      if draft.data.name = "" then s
      else
        let batch := s.batch ++ [draft]
        let imported := addName s.imported draft.data.name
        if batchSize ≤ batch.length then
          { batch := [], imported := imported, flushes := s.flushes ++ [batch],
            store := upsertBatch batch s.store }
        else
          { s with batch := batch, imported := imported }

/-- The accepted-case body of processRow, factored out for the proofs. -/
def pushDraft (s : RunState) (draft : ProductDraft) : RunState :=
  if batchSize ≤ (s.batch ++ [draft]).length then
    { batch := [],
      imported := addName s.imported draft.data.name,
      flushes := s.flushes ++ [s.batch ++ [draft]],
      store := upsertBatch (s.batch ++ [draft]) s.store }
  else
    { s with
      batch := s.batch ++ [draft],
      imported := addName s.imported draft.data.name }

/-- The serialized stream: rows are processed one at a time in order
(the source pauses the stream around each row). -/
def runRows (tf : Row → Except Unit ProductDraft) (rows : List Row) (s : RunState) :
    RunState :=
  rows.foldl (processRow tf) s

/-- The end event of the stream (src/product/product.service.ts lines 90-93):
a remaining non-empty partial batch is flushed. -/
def finalFlush (s : RunState) : RunState :=
  if s.batch.isEmpty then s
  else
    { s with
      batch := [],
      flushes := s.flushes ++ [s.batch],
      store := upsertBatch s.batch s.store }

/-- The Mongo filter of handleDeletions (src/product/product.service.ts lines
201-204): data.name not among the imported names and data.isDeleted not
true. -/
def selectedForDeletion (imported : List String) (doc : StoredProduct) : Bool :=
  !(imported.contains doc.data.name) && !doc.data.isDeleted

/-- Effect of `product.data.isDeleted = true; await product.save()`
(src/product/product.service.ts lines 209-210). -/
def flagDoc (doc : StoredProduct) : StoredProduct :=
  { doc with data := { doc.data with isDeleted := true } }

/-- Shallow embedding of ProductService.handleDeletions
(src/product/product.service.ts lines 197-219), generic in the
order-existence collaborator.  hasOrders abstracts
`await this.checkExistingOrders(product.id)` as a predicate on the selected
document.  The first component is the store after the pass; the second lists
the documents written back (saved), in order. -/
def handleDeletionsWith (hasOrders : StoredProduct → Bool) (imported : List String)
    (store : List StoredProduct) : List StoredProduct × List StoredProduct :=
  (store.map fun doc =>
      if selectedForDeletion imported doc && !hasOrders doc then flagDoc doc else doc,
   (store.filter fun doc => selectedForDeletion imported doc && !hasOrders doc).map flagDoc)

/-- Shallow embedding of ProductService.checkExistingOrders
(src/product/product.service.ts lines 226-230): the stub always reports that
no orders exist. -/
def checkExistingOrders : StoredProduct → Bool := fun _ => false

/-- ProductService.handleDeletions as called in the source: the generic pass
instantiated with the stubbed order check. -/
def handleDeletions (imported : List String) (store : List StoredProduct) :
    List StoredProduct × List StoredProduct :=
  handleDeletionsWith checkExistingOrders imported store

/-- Initial run state over a given store: empty batch, empty imported-name
set, no flushes yet. -/
def initState (store : List StoredProduct) : RunState :=
  { batch := [], imported := [], flushes := [], store := store }

/-- Shallow embedding of ProductService.importProducts
(src/product/product.service.ts lines 41-102) for a successfully opened file
already parsed into rows: stream the rows, flush the remaining partial batch
at the end, and, when the deletion flag is set, run the reconciliation pass
over the resulting store with the imported-name set of the run. -/
def importProducts (tf : Row → Except Unit ProductDraft) (deleteFlag : Bool)
    (hasOrders : StoredProduct → Bool) (rows : List Row)
    (store : List StoredProduct) : RunState :=
  let s := finalFlush (runRows tf rows (initState store))
  if deleteFlag then
    { s with store := (handleDeletionsWith hasOrders s.imported s.store).1 }
  else s

/-- The draft a row contributes, when it passes both skip guards. -/
def acceptedDraft (tf : Row → Except Unit ProductDraft) (row : Row) :
    Option ProductDraft :=
  if row.ManufacturerName = "" then none
  else
    match tf row with
    | Except.error _ => none
    | Except.ok draft => if draft.data.name = "" then none else some draft

/-- The drafts accepted over a row list, in order. -/
def acceptedDrafts (tf : Row → Except Unit ProductDraft) (rows : List Row) :
    List ProductDraft :=
  rows.filterMap (acceptedDraft tf)

/-- The names of the accepted drafts, in order. -/
def acceptedNames (tf : Row → Except Unit ProductDraft) (rows : List Row) :
    List String :=
  (acceptedDrafts tf rows).map fun d => d.data.name

/-- Invariant of the streaming loop: the in-memory batch is strictly below
the threshold between rows, and every flushed batch had exactly the threshold
length. -/
def flushInv (s : RunState) : Prop :=
  s.batch.length < batchSize ∧ ∀ b ∈ s.flushes, b.length = batchSize

/-- Two stored documents agreeing on every field other than
data.isDeleted. -/
def sameButDeleted (a b : StoredProduct) : Prop :=
  a.docId = b.docId ∧ a.fullData = b.fullData ∧ a.data.name = b.data.name ∧
  a.data.type = b.data.type ∧ a.data.shortDescription = b.data.shortDescription ∧
  a.data.description = b.data.description ∧ a.data.vendorId = b.data.vendorId ∧
  a.data.manufacturerId = b.data.manufacturerId ∧
  a.data.storefrontPriceVisibility = b.data.storefrontPriceVisibility ∧
  a.data.variants = b.data.variants

/-- The worked example row of the feed (spec section 8). -/
def exRow : Row :=
  { ProductID := "1", ManufacturerID := "77", ManufacturerName := "Acme",
    ProductName := "Gauze", PrimaryCategoryName := "Medical",
    ProductDescription := "", PriceDescription := "", Availability := "Available",
    PKG := "BX", ItemDescription := "", UnitPrice := "2.50",
    ManufacturerItemCode := "GZ1", NDCItemCode := "", ImageFileName := "",
    ItemImageURL := "" }

/-- The example row with the manufacturer name missing. -/
def exRowNoMan : Row :=
  { exRow with ManufacturerName := "" }

/-- A concrete stored payload for the upsert examples. -/
def exDataOld : ProductData :=
  { name := "Gauze", type := "non-inventory", shortDescription := "old",
    description := "old text", vendorId := "v0", manufacturerId := "m0",
    storefrontPriceVisibility := "members-only", variants := [],
    isDeleted := false }

/-- A fresh payload for the same product name. -/
def exDataNew : ProductData :=
  { exDataOld with
    shortDescription := "new",
    description := "new text",
    vendorId := "v1",
    manufacturerId := "m1" }

/-- A previously stored document carrying a non-null fullData payload. -/
def exOld : StoredProduct :=
  { docId := "docOld", fullData := some "legacy", data := exDataOld }

/-- A new draft for the same product name. -/
def exDraft : ProductDraft :=
  { docId := "docNew", data := exDataNew }

/-- C1 (refuting the claim on the code as written): the resolvers are not
idempotent for a previously seen natural key.  A created record stores the
generated id, not the natural key, in the very field the lookup filters on,
so a second call with the same key misses again, persists a second record and
returns a different id.  Failing input: natural key 77, display name "Acme",
initially empty collections, fresh generated ids "m1" then "m2" (resp. "v1"
then "v2"); the second call returns the second fresh id and the collection
has grown to two records. -/
theorem resolver_second_call_creates_new_record :
    (getManufacturerId "m1" 77 "Acme" []).1 = "m1" ∧
    ((getManufacturerId "m1" 77 "Acme" []).2).length = 1 ∧
    (getManufacturerId "m2" 77 "Acme" (getManufacturerId "m1" 77 "Acme" []).2).1 = "m2" ∧
    ((getManufacturerId "m2" 77 "Acme" (getManufacturerId "m1" 77 "Acme" []).2).2).length = 2 ∧
    ("m1" : String) ≠ "m2" ∧
    (getVendorId "v2" 77 "Acme" (getVendorId "v1" 77 "Acme" []).2).1 = "v2" ∧
    ((getVendorId "v2" 77 "Acme" (getVendorId "v1" 77 "Acme" []).2).2).length = 2 := by
  decide

/-- The JavaScript fallback `x || 0` is the identity on an actual number. -/
theorem orZero_some (v : ℚ) : orZero (some v) = v := by
  show (if v = 0 then 0 else v) = v
  split
  · next hz => exact hz.symm
  · rfl

/-- C2: for every row with a valid manufacturer name and a resolvable product
name, transformRow produces exactly one variant; its sku is the manufacturer
item code concatenated with the packaging code, its available flag holds
exactly when the availability field is the literal string "Available", its
cost is the parsed unit price and its price is the parsed unit price times
1.2 (the exact rational 6/5 in this model of JavaScript numbers), and a
non-numeric unit price degrades both cost and price to 0 instead of raising
an error. -/
theorem transformRow_variant_spec
    (docId variantId vendorId manufacturerId enhancedDescription : String)
    (row : Row) (hman : row.ManufacturerName ≠ "") (hname : row.ProductName ≠ "") :
    (transformRow docId variantId vendorId manufacturerId enhancedDescription
        row).data.variants.length = 1 ∧
    ∀ v ∈ (transformRow docId variantId vendorId manufacturerId enhancedDescription
        row).data.variants,
      v.sku = row.ManufacturerItemCode ++ row.PKG ∧
      (v.available = true ↔ row.Availability = "Available") ∧
      (∀ q : ℚ, parseFloatQ row.UnitPrice = some q → v.price = q * (6 / 5) ∧ v.cost = q) ∧
      (parseFloatQ row.UnitPrice = none → v.price = 0 ∧ v.cost = 0) := by
  refine ⟨rfl, ?_⟩
  intro v hv
  simp only [transformRow, List.mem_singleton] at hv
  subst hv
  refine ⟨rfl, by simp, ?_, ?_⟩
  · intro q hq
    have hp : (parseFloatQ row.UnitPrice).map (fun q => q * (6 / 5 : ℚ))
        = some (q * (6 / 5)) := by rw [hq]; rfl
    constructor
    · show orZero ((parseFloatQ row.UnitPrice).map fun q => q * (6 / 5 : ℚ)) = q * (6 / 5)
      rw [hp, orZero_some]
    · show orZero (parseFloatQ row.UnitPrice) = q
      rw [hq, orZero_some]
  · intro hq
    constructor
    · show orZero ((parseFloatQ row.UnitPrice).map fun q => q * (6 / 5 : ℚ)) = 0
      rw [hq]
      rfl
    · show orZero (parseFloatQ row.UnitPrice) = 0
      rw [hq]
      rfl

/-- Witness for C2 at the worked example row of the spec. -/
theorem transformRow_variant_spec_witness :
    exRow.ManufacturerName ≠ "" ∧ exRow.ProductName ≠ "" ∧
    ((transformRow "doc1" "var1" "vid1" "mid1" "enhanced" exRow).data.variants.length = 1 ∧
     ∀ v ∈ (transformRow "doc1" "var1" "vid1" "mid1" "enhanced" exRow).data.variants,
       v.sku = exRow.ManufacturerItemCode ++ exRow.PKG ∧
       (v.available = true ↔ exRow.Availability = "Available") ∧
       (∀ q : ℚ, parseFloatQ exRow.UnitPrice = some q → v.price = q * (6 / 5) ∧ v.cost = q) ∧
       (parseFloatQ exRow.UnitPrice = none → v.price = 0 ∧ v.cost = 0)) :=
  ⟨by decide, by decide,
    transformRow_variant_spec "doc1" "var1" "vid1" "mid1" "enhanced" exRow
      (by decide) (by decide)⟩

/-- C4: whenever the external completion call errors or returns a response
with no usable choices, enhanceDescription returns the supplied description
unchanged, or the empty string when none was supplied, for every outcome of
the rate limiter; the function is total, so no exception reaches the
caller. -/
theorem enhanceDescription_fallback (limiterResult : Except String Unit)
    (apiResult : Except String (Option CompletionData)) (name category : String)
    (description : Option String)
    (h : (∃ e, apiResult = Except.error e) ∨ apiResult = Except.ok none ∨
         apiResult = Except.ok (some { choices := none }) ∨
         apiResult = Except.ok (some { choices := some [] })) :
    enhanceDescription limiterResult apiResult name category description
      = description.getD "" := by
  rcases h with ⟨e, rfl⟩ | rfl | rfl | rfl <;> cases limiterResult <;> rfl

/-- Witness for C4: a service error together with a limiter error still
yields the original description. -/
theorem enhanceDescription_fallback_witness :
    enhanceDescription (Except.error "limiter down") (Except.error "service down")
        "Gauze" "Medical" (some "orig") = (some "orig").getD "" :=
  enhanceDescription_fallback (Except.error "limiter down")
    (Except.error "service down") "Gauze" "Medical" (some "orig")
    (Or.inl ⟨"service down", rfl⟩)

/-- A document whose name differs from the draft is left in place by one
upsert item. -/
theorem mem_upsertOne_of_ne (store : List StoredProduct) (draft : ProductDraft)
    (doc : StoredProduct) (hd : doc ∈ store)
    (hne : doc.data.name ≠ draft.data.name) : doc ∈ upsertOne store draft := by
  induction store with
  | nil => cases hd
  | cons d rest ih =>
    rcases List.mem_cons.mp hd with rfl | hd2
    · simp [upsertOne, hne]
    · by_cases h : d.data.name = draft.data.name
      · simp only [upsertOne, if_pos h]
        exact List.mem_cons_of_mem _ hd2
      · simp only [upsertOne, if_neg h]
        exact List.mem_cons_of_mem _ (ih hd2)

/-- A document whose name matches no draft of the batch is left in place by
the bulk upsert. -/
theorem mem_upsertBatch_of_ne (batch : List ProductDraft)
    (store : List StoredProduct) (doc : StoredProduct) (hd : doc ∈ store)
    (hne : ∀ d ∈ batch, doc.data.name ≠ d.data.name) :
    doc ∈ upsertBatch batch store := by
  induction batch generalizing store with
  | nil => exact hd
  | cons b rest ih =>
    show doc ∈ upsertBatch rest (upsertOne store b)
    exact ih (upsertOne store b)
      (mem_upsertOne_of_ne store b doc hd (hne b (List.mem_cons_self b rest)))
      (fun d hdr => hne d (List.mem_cons_of_mem b hdr))

/-- Names after one upsert item: unchanged when the draft name is already
present, appended otherwise. -/
theorem upsertOne_names (store : List StoredProduct) (draft : ProductDraft) :
    (upsertOne store draft).map (fun d => d.data.name)
      = if draft.data.name ∈ store.map (fun d => d.data.name)
        then store.map (fun d => d.data.name)
        else store.map (fun d => d.data.name) ++ [draft.data.name] := by
  induction store with
  | nil => simp [upsertOne]
  | cons d rest ih =>
    by_cases h : d.data.name = draft.data.name
    · simp [upsertOne, h, setDraft]
    · simp only [upsertOne, if_neg h, List.map_cons, ih]
      by_cases h2 : draft.data.name ∈ rest.map fun d => d.data.name
      · simp [h2, Ne.symm h]
      · simp [h2, Ne.symm h]

/-- One upsert item preserves pairwise-distinct names. -/
theorem upsertOne_uniq (store : List StoredProduct) (draft : ProductDraft)
    (h : uniqNames store) : uniqNames (upsertOne store draft) := by
  unfold uniqNames at h ⊢
  rw [upsertOne_names]
  split
  · exact h
  · next hmem =>
    refine h.append (List.nodup_singleton _) ?_
    intro a ha hb
    rw [List.mem_singleton] at hb
    exact hmem (hb ▸ ha)

/-- The bulk upsert preserves pairwise-distinct names. -/
theorem upsertBatch_uniq (batch : List ProductDraft) (store : List StoredProduct)
    (h : uniqNames store) : uniqNames (upsertBatch batch store) := by
  induction batch generalizing store with
  | nil => exact h
  | cons b rest ih => exact ih (upsertOne store b) (upsertOne_uniq store b h)

/-- The deletion pass does not change any document name. -/
theorem handleDeletionsWith_fst_names (hasOrders : StoredProduct → Bool)
    (imported : List String) (store : List StoredProduct) :
    ((handleDeletionsWith hasOrders imported store).1.map fun d => d.data.name)
      = store.map fun d => d.data.name := by
  unfold handleDeletionsWith
  rw [List.map_map]
  apply List.map_congr_left
  intro d _
  by_cases h : (selectedForDeletion imported d && !hasOrders d) = true
  · simp only [Function.comp_apply, h, if_true]
    rfl
  · simp only [Function.comp_apply, if_neg h]

/-- The per-row processing is the push of the accepted draft, when there is
one, and otherwise leaves the state unchanged. -/
theorem processRow_eq (tf : Row → Except Unit ProductDraft) (s : RunState)
    (row : Row) :
    processRow tf s row
      = match acceptedDraft tf row with
        | none => s
        | some draft => pushDraft s draft := by
  by_cases h1 : row.ManufacturerName = ""
  · simp [processRow, acceptedDraft, h1]
  · cases htf : tf row with
    | error e => simp [processRow, acceptedDraft, h1, htf]
    | ok draft =>
      by_cases h2 : draft.data.name = ""
      · simp [processRow, acceptedDraft, h1, htf, h2]
      · simp [processRow, acceptedDraft, pushDraft, h1, htf, h2]

/-- Each stream event preserves pairwise-distinct names in the store. -/
theorem processRow_uniq (tf : Row → Except Unit ProductDraft) (s : RunState)
    (row : Row) (h : uniqNames s.store) : uniqNames (processRow tf s row).store := by
  rw [processRow_eq]
  cases acceptedDraft tf row with
  | none => exact h
  | some draft =>
    show uniqNames (pushDraft s draft).store
    unfold pushDraft
    by_cases hb : batchSize ≤ (s.batch ++ [draft]).length
    · rw [if_pos hb]
      exact upsertBatch_uniq _ _ h
    · rw [if_neg hb]
      exact h

/-- The streamed run preserves pairwise-distinct names in the store. -/
theorem runRows_uniq (tf : Row → Except Unit ProductDraft) (rows : List Row)
    (s : RunState) (h : uniqNames s.store) : uniqNames (runRows tf rows s).store := by
  induction rows generalizing s with
  | nil => exact h
  | cons r rest ih => exact ih (processRow tf s r) (processRow_uniq tf s r h)

/-- The final flush preserves pairwise-distinct names in the store. -/
theorem finalFlush_uniq (s : RunState) (h : uniqNames s.store) :
    uniqNames (finalFlush s).store := by
  unfold finalFlush
  split
  · exact h
  · exact upsertBatch_uniq _ _ h

/-- A whole import run preserves pairwise-distinct names in the store. -/
theorem importProducts_uniq (tf : Row → Except Unit ProductDraft)
    (deleteFlag : Bool) (hasOrders : StoredProduct → Bool) (rows : List Row)
    (store : List StoredProduct) (h : uniqNames store) :
    uniqNames (importProducts tf deleteFlag hasOrders rows store).store := by
  have hb : uniqNames (finalFlush (runRows tf rows (initState store))).store :=
    finalFlush_uniq _ (runRows_uniq tf rows _ h)
  cases deleteFlag
  · exact hb
  · show uniqNames (handleDeletionsWith hasOrders
      (finalFlush (runRows tf rows (initState store))).imported
      (finalFlush (runRows tf rows (initState store))).store).1
    unfold uniqNames at hb ⊢
    rw [handleDeletionsWith_fst_names]
    exact hb

/-- C5: the upsert is keyed by product name, so a run over a store holding at
most one product per name leaves at most one product per name, and running
the identical import a second time over the resulting state still produces no
duplicate product records. -/
theorem importProducts_twice_no_duplicate_names
    (tf : Row → Except Unit ProductDraft) (deleteFlag : Bool)
    (hasOrders : StoredProduct → Bool) (rows : List Row)
    (store : List StoredProduct) (h : uniqNames store) :
    uniqNames (importProducts tf deleteFlag hasOrders rows store).store ∧
    uniqNames (importProducts tf deleteFlag hasOrders rows
        (importProducts tf deleteFlag hasOrders rows store).store).store :=
  ⟨importProducts_uniq tf deleteFlag hasOrders rows store h,
   importProducts_uniq tf deleteFlag hasOrders rows _
     (importProducts_uniq tf deleteFlag hasOrders rows store h)⟩

/-- Witness for C5 over a concrete run. -/
theorem importProducts_twice_no_duplicate_names_witness :
    uniqNames ([] : List StoredProduct) ∧
    (uniqNames (importProducts (fun _ => Except.ok exDraft) true checkExistingOrders
        [exRow] []).store ∧
     uniqNames (importProducts (fun _ => Except.ok exDraft) true checkExistingOrders
        [exRow]
        (importProducts (fun _ => Except.ok exDraft) true checkExistingOrders
          [exRow] []).store).store) :=
  ⟨by unfold uniqNames; decide,
    importProducts_twice_no_duplicate_names (fun _ => Except.ok exDraft) true
      checkExistingOrders [exRow] [] (by unfold uniqNames; decide)⟩

/-- C8 counterexample: the upsert is not a full-document replace.  A stored
document for the name "Gauze" carrying a non-null fullData payload is
upserted with a new draft for the same name; the resulting document keeps the
previous fullData value, so it does not equal the new draft materialised as a
fresh document. -/
theorem upsert_full_replace_counterexample :
    upsertBatch [exDraft] [exOld]
        = [{ docId := "docNew", fullData := some "legacy", data := exDataNew }] ∧
    upsertBatch [exDraft] [exOld]
        ≠ [{ docId := exDraft.docId, fullData := none, data := exDraft.data }] := by
  decide

/-- With all names distinct and a matching document present, one upsert item
rewrites exactly the matching document by setting the draft fields. -/
theorem upsertOne_eq_map_of_mem (store : List StoredProduct)
    (draft : ProductDraft) (hu : uniqNames store)
    (hex : ∃ doc ∈ store, doc.data.name = draft.data.name) :
    upsertOne store draft
      = store.map fun e =>
          if e.data.name = draft.data.name then setDraft draft e else e := by
  induction store with
  | nil => rcases hex with ⟨d, hd, _⟩; cases hd
  | cons d rest ih =>
    unfold uniqNames at hu
    rw [List.map_cons, List.nodup_cons] at hu
    obtain ⟨hnotin, hrest⟩ := hu
    by_cases h : d.data.name = draft.data.name
    · have hmap : (rest.map fun e =>
          if e.data.name = draft.data.name then setDraft draft e else e) = rest := by
        conv_rhs => rw [← List.map_id rest]
        apply List.map_congr_left
        intro e he
        have hne : e.data.name ≠ draft.data.name := by
          intro heq
          exact hnotin (by
            rw [h]
            exact heq ▸ List.mem_map_of_mem (fun x => x.data.name) he)
        simp [hne]
      simp [upsertOne, h, hmap]
    · rcases hex with ⟨doc, hdoc, hnm⟩
      rcases List.mem_cons.mp hdoc with rfl | hdoc2
      · exact absurd hnm h
      · simp only [upsertOne, if_neg h, List.map_cons, if_neg h]
        rw [ih hrest ⟨doc, hdoc2, hnm⟩]

/-- C8 (amended): an import carrying an already stored name overwrites the
stored record by setting the fields present in the draft — the docId and the
whole data subdocument — while top-level fields absent from the draft (the
fullData payload) keep their previous stored value; no other document is
touched. -/
theorem upsertOne_replaces_draft_fields (store : List StoredProduct)
    (draft : ProductDraft) (doc : StoredProduct) (hu : uniqNames store)
    (hd : doc ∈ store) (hn : doc.data.name = draft.data.name) :
    upsertOne store draft
      = store.map (fun e =>
          if e.data.name = draft.data.name then setDraft draft e else e) ∧
    setDraft draft doc ∈ upsertOne store draft ∧
    (setDraft draft doc).docId = draft.docId ∧
    (setDraft draft doc).data = draft.data ∧
    (setDraft draft doc).fullData = doc.fullData := by
  have he := upsertOne_eq_map_of_mem store draft hu ⟨doc, hd, hn⟩
  refine ⟨he, ?_, rfl, rfl, rfl⟩
  rw [he]
  have hstep : setDraft draft doc
      = (fun e => if e.data.name = draft.data.name then setDraft draft e else e) doc := by
    simp [hn]
  rw [hstep]
  exact List.mem_map_of_mem _ hd

/-- Witness for the amended C8 at the concrete legacy document. -/
theorem upsertOne_replaces_draft_fields_witness :
    uniqNames [exOld] ∧ exOld ∈ [exOld] ∧ exOld.data.name = exDraft.data.name ∧
    (upsertOne [exOld] exDraft
        = [exOld].map (fun e =>
            if e.data.name = exDraft.data.name then setDraft exDraft e else e) ∧
     setDraft exDraft exOld ∈ upsertOne [exOld] exDraft ∧
     (setDraft exDraft exOld).docId = exDraft.docId ∧
     (setDraft exDraft exOld).data = exDraft.data ∧
     (setDraft exDraft exOld).fullData = exOld.fullData) :=
  ⟨by unfold uniqNames; decide, by decide, by decide,
    upsertOne_replaces_draft_fields [exOld] exDraft exOld
      (by unfold uniqNames; decide) (by decide) (by decide)⟩

/-- Unfolding of the run over an empty row list. -/
theorem runRows_nil (tf : Row → Except Unit ProductDraft) (s : RunState) :
    runRows tf [] s = s := rfl

/-- Unfolding of the run over a first row. -/
theorem runRows_cons (tf : Row → Except Unit ProductDraft) (r : Row)
    (rows : List Row) (s : RunState) :
    runRows tf (r :: rows) s = runRows tf rows (processRow tf s r) := rfl

/-- Accepted drafts of a row list, first row split off. -/
theorem acceptedDrafts_cons (tf : Row → Except Unit ProductDraft) (r : Row)
    (rows : List Row) :
    acceptedDrafts tf (r :: rows)
      = (acceptedDraft tf r).toList ++ acceptedDrafts tf rows := by
  unfold acceptedDrafts
  cases h : acceptedDraft tf r <;> simp [List.filterMap_cons, h]

/-- Membership in the JavaScript-set insertion. -/
theorem mem_addName (s : List String) (n m : String) :
    m ∈ addName s n ↔ m ∈ s ∨ m = n := by
  unfold addName
  split
  · next hn =>
    constructor
    · exact fun hm => Or.inl hm
    · rintro (hm | rfl)
      · exact hm
      · exact hn
  · simp

/-- The imported set after a push. -/
theorem pushDraft_imported (s : RunState) (draft : ProductDraft) :
    (pushDraft s draft).imported = addName s.imported draft.data.name := by
  unfold pushDraft
  split <;> rfl

/-- The flush trace after a push: flushed drafts plus pending batch grow by
exactly the pushed draft. -/
theorem pushDraft_trace (s : RunState) (draft : ProductDraft) :
    (pushDraft s draft).flushes.flatten ++ (pushDraft s draft).batch
      = s.flushes.flatten ++ s.batch ++ [draft] := by
  unfold pushDraft
  split
  · show (s.flushes ++ [s.batch ++ [draft]]).flatten ++ [] = _
    simp
  · show s.flushes.flatten ++ (s.batch ++ [draft]) = _
    simp

/-- A push keeps the pending batch strictly below the threshold. -/
theorem pushDraft_batch_lt (s : RunState) (draft : ProductDraft)
    (h : s.batch.length < batchSize) :
    (pushDraft s draft).batch.length < batchSize := by
  unfold pushDraft
  split
  · show ([] : List ProductDraft).length < batchSize
    decide
  · next hb =>
    show (s.batch ++ [draft]).length < batchSize
    exact Nat.lt_of_not_le hb

/-- A push flushes only batches of exactly the threshold length. -/
theorem pushDraft_flushes (s : RunState) (draft : ProductDraft)
    (hlt : s.batch.length < batchSize)
    (h : ∀ b ∈ s.flushes, b.length = batchSize) :
    ∀ b ∈ (pushDraft s draft).flushes, b.length = batchSize := by
  unfold pushDraft
  split
  · next hb =>
    intro b hbmem
    rcases List.mem_append.mp hbmem with h1 | h1
    · exact h b h1
    · rw [List.mem_singleton] at h1
      subst h1
      simp only [List.length_append, List.length_singleton] at hb ⊢
      omega
  · intro b hbmem
    exact h b hbmem

/-- Each stream event preserves the flush invariant. -/
theorem processRow_flushInv (tf : Row → Except Unit ProductDraft) (s : RunState)
    (row : Row) (h : flushInv s) : flushInv (processRow tf s row) := by
  rw [processRow_eq]
  cases acceptedDraft tf row with
  | none => exact h
  | some draft =>
    show flushInv (pushDraft s draft)
    exact ⟨pushDraft_batch_lt s draft h.1, pushDraft_flushes s draft h.1 h.2⟩

/-- The streamed run preserves the flush invariant. -/
theorem runRows_flushInv (tf : Row → Except Unit ProductDraft) (rows : List Row)
    (s : RunState) (h : flushInv s) : flushInv (runRows tf rows s) := by
  induction rows generalizing s with
  | nil => exact h
  | cons r rest ih => exact ih (processRow tf s r) (processRow_flushInv tf s r h)

/-- Each stream event appends exactly its accepted draft to the flush
trace. -/
theorem processRow_trace (tf : Row → Except Unit ProductDraft) (s : RunState)
    (row : Row) :
    (processRow tf s row).flushes.flatten ++ (processRow tf s row).batch
      = s.flushes.flatten ++ s.batch ++ (acceptedDraft tf row).toList := by
  rw [processRow_eq]
  cases acceptedDraft tf row with
  | none => simp
  | some draft =>
    show (pushDraft s draft).flushes.flatten ++ (pushDraft s draft).batch = _
    rw [pushDraft_trace]
    simp

/-- The run appends exactly the accepted drafts, in order, to the flush
trace. -/
theorem runRows_trace (tf : Row → Except Unit ProductDraft) (rows : List Row)
    (s : RunState) :
    (runRows tf rows s).flushes.flatten ++ (runRows tf rows s).batch
      = s.flushes.flatten ++ s.batch ++ acceptedDrafts tf rows := by
  induction rows generalizing s with
  | nil => simp [runRows, acceptedDrafts]
  | cons r rest ih =>
    rw [runRows_cons, ih, processRow_trace, acceptedDrafts_cons]
    simp

/-- The state after the processing of one skipped row. -/
theorem processRow_of_none (tf : Row → Except Unit ProductDraft) (s : RunState)
    (row : Row) (h : acceptedDraft tf row = none) : processRow tf s row = s := by
  rw [processRow_eq, h]

/-- The state after the processing of one accepted row. -/
theorem processRow_of_some (tf : Row → Except Unit ProductDraft) (s : RunState)
    (row : Row) (draft : ProductDraft) (h : acceptedDraft tf row = some draft) :
    processRow tf s row = pushDraft s draft := by
  rw [processRow_eq, h]

/-- Membership in the imported-name set after a run: the starting set plus
exactly the accepted names. -/
theorem runRows_imported_mem (tf : Row → Except Unit ProductDraft)
    (rows : List Row) (s : RunState) (m : String) :
    m ∈ (runRows tf rows s).imported ↔ m ∈ s.imported ∨ m ∈ acceptedNames tf rows := by
  induction rows generalizing s with
  | nil => simp [runRows, acceptedNames, acceptedDrafts]
  | cons r rest ih =>
    cases h : acceptedDraft tf r with
    | none =>
      rw [runRows_cons, ih, processRow_of_none tf s r h]
      simp [acceptedNames, acceptedDrafts_cons, h]
    | some draft =>
      rw [runRows_cons, ih, processRow_of_some tf s r draft h, pushDraft_imported]
      simp only [acceptedNames, acceptedDrafts_cons, h, Option.toList_some,
        List.map_append, List.mem_append, List.map_cons, List.map_nil,
        List.mem_cons, mem_addName, List.not_mem_nil]
      tauto

/-- The imported set is untouched by the final flush. -/
theorem finalFlush_imported (s : RunState) :
    (finalFlush s).imported = s.imported := by
  unfold finalFlush
  split <;> rfl

/-- The pending batch is empty after the final flush. -/
theorem finalFlush_batch (s : RunState) : (finalFlush s).batch = [] := by
  unfold finalFlush
  split
  · next h => exact List.isEmpty_iff.mp h
  · rfl

/-- The flush trace after the final flush absorbs the pending batch. -/
theorem finalFlush_join (s : RunState) :
    (finalFlush s).flushes.flatten = s.flushes.flatten ++ s.batch := by
  unfold finalFlush
  split
  · next h => simp [List.isEmpty_iff.mp h]
  · show (s.flushes ++ [s.batch]).flatten = _
    simp

/-- C6: over a whole run from an empty batch, the in-memory batch stays
strictly below the threshold of 1000 between rows; every batch flushed during
the stream had exactly 1000 drafts (the batch is flushed through one bulk
upsert and cleared the moment it reaches the threshold); the final flush
empties the remaining partial batch; and the concatenation of all flushed
batches is exactly the list of accepted drafts, so every accepted draft is
contained in exactly one bulk upsert of the run. -/
theorem importProducts_batch_bound_and_flushes
    (tf : Row → Except Unit ProductDraft) (rows : List Row)
    (store : List StoredProduct) :
    (runRows tf rows (initState store)).batch.length < batchSize ∧
    (∀ b ∈ (runRows tf rows (initState store)).flushes, b.length = batchSize) ∧
    (finalFlush (runRows tf rows (initState store))).batch = [] ∧
    (finalFlush (runRows tf rows (initState store))).flushes.flatten
      = acceptedDrafts tf rows := by
  have hinv : flushInv (runRows tf rows (initState store)) := by
    apply runRows_flushInv
    constructor
    · show ([] : List ProductDraft).length < batchSize
      decide
    · intro b hb
      simp [initState] at hb
  refine ⟨hinv.1, hinv.2, finalFlush_batch _, ?_⟩
  rw [finalFlush_join]
  have h := runRows_trace tf rows (initState store)
  simpa [initState] using h

/-- C7: a row that is missing the manufacturer name, or whose transform
throws, or whose transform yields no product name, leaves the run state
unchanged — nothing is added to the batch, nothing is upserted, no name is
recorded — and processing simply continues with the remaining rows; no
per-row condition aborts the run. -/
theorem importProducts_skips_bad_rows (tf : Row → Except Unit ProductDraft)
    (s : RunState) (row : Row) (rows : List Row)
    (h : row.ManufacturerName = "" ∨ tf row = Except.error () ∨
         ∃ draft, tf row = Except.ok draft ∧ draft.data.name = "") :
    processRow tf s row = s ∧ runRows tf (row :: rows) s = runRows tf rows s := by
  have hacc : acceptedDraft tf row = none := by
    unfold acceptedDraft
    rcases h with h1 | h1 | ⟨draft, h1, h2⟩
    · simp [h1]
    · by_cases hm : row.ManufacturerName = ""
      · simp [hm]
      · simp [hm, h1]
    · by_cases hm : row.ManufacturerName = ""
      · simp [hm]
      · simp [hm, h1, h2]
  have hp : processRow tf s row = s := processRow_of_none tf s row hacc
  exact ⟨hp, by rw [runRows_cons, hp]⟩

/-- Witness for C7 at a row with a missing manufacturer name. -/
theorem importProducts_skips_bad_rows_witness :
    exRowNoMan.ManufacturerName = "" ∧
    (processRow (fun _ => Except.ok exDraft) (initState []) exRowNoMan
        = initState [] ∧
     runRows (fun _ => Except.ok exDraft) [exRowNoMan] (initState [])
        = runRows (fun _ => Except.ok exDraft) [] (initState [])) :=
  ⟨rfl, importProducts_skips_bad_rows (fun _ => Except.ok exDraft) (initState [])
      exRowNoMan [] (Or.inl rfl)⟩

/-- Reduction of a Bool-conditioned if on a true condition. -/
theorem bif_pos {α : Type} {b : Bool} (x y : α) (h : b = true) :
    (if b then x else y) = x := by
  subst h
  rfl

/-- Reduction of a Bool-conditioned if on a false condition. -/
theorem bif_neg {α : Type} {b : Bool} (x y : α) (h : b = false) :
    (if b then x else y) = y := by
  subst h
  rfl

/-- Accepted names of a row list when the first row is skipped. -/
theorem acceptedNames_cons_none (tf : Row → Except Unit ProductDraft) (r : Row)
    (rows : List Row) (h : acceptedDraft tf r = none) :
    acceptedNames tf (r :: rows) = acceptedNames tf rows := by
  unfold acceptedNames
  rw [acceptedDrafts_cons, h]
  rfl

/-- Accepted names of a row list when the first row is accepted. -/
theorem acceptedNames_cons_some (tf : Row → Except Unit ProductDraft) (r : Row)
    (rows : List Row) (draft : ProductDraft) (h : acceptedDraft tf r = some draft) :
    acceptedNames tf (r :: rows) = draft.data.name :: acceptedNames tf rows := by
  unfold acceptedNames
  rw [acceptedDrafts_cons, h]
  rfl

/-- A stored document whose name is accepted by no row survives the whole
stream unchanged, and no pending draft carries its name. -/
theorem runRows_store_survive (tf : Row → Except Unit ProductDraft)
    (rows : List Row) (s : RunState) (doc : StoredProduct)
    (hdoc : doc ∈ s.store)
    (hbatch : ∀ d ∈ s.batch, doc.data.name ≠ d.data.name)
    (hacc : doc.data.name ∉ acceptedNames tf rows) :
    doc ∈ (runRows tf rows s).store ∧
    ∀ d ∈ (runRows tf rows s).batch, doc.data.name ≠ d.data.name := by
  induction rows generalizing s with
  | nil => exact ⟨hdoc, hbatch⟩
  | cons r rest ih =>
    rw [runRows_cons]
    cases h : acceptedDraft tf r with
    | none =>
      rw [processRow_of_none tf s r h]
      rw [acceptedNames_cons_none tf r rest h] at hacc
      exact ih s hdoc hbatch hacc
    | some draft =>
      rw [acceptedNames_cons_some tf r rest draft h] at hacc
      have hne : doc.data.name ≠ draft.data.name := by
        intro heq
        exact hacc (heq ▸ List.mem_cons_self _ _)
      have hrest : doc.data.name ∉ acceptedNames tf rest := by
        intro hmem
        exact hacc (List.mem_cons_of_mem _ hmem)
      have hball : ∀ d ∈ s.batch ++ [draft], doc.data.name ≠ d.data.name := by
        intro d hd
        rcases List.mem_append.mp hd with h1 | h1
        · exact hbatch d h1
        · rw [List.mem_singleton] at h1
          subst h1
          exact hne
      rw [processRow_of_some tf s r draft h]
      apply ih (pushDraft s draft) ?_ ?_ hrest
      · unfold pushDraft
        by_cases hb : batchSize ≤ (s.batch ++ [draft]).length
        · rw [if_pos hb]
          show doc ∈ upsertBatch (s.batch ++ [draft]) s.store
          exact mem_upsertBatch_of_ne _ _ _ hdoc hball
        · rw [if_neg hb]
          exact hdoc
      · unfold pushDraft
        by_cases hb : batchSize ≤ (s.batch ++ [draft]).length
        · rw [if_pos hb]
          intro d hd
          simp at hd
        · rw [if_neg hb]
          exact hball

/-- A stored document whose name matches no pending draft survives the final
flush. -/
theorem finalFlush_store_mem (s : RunState) (doc : StoredProduct)
    (hdoc : doc ∈ s.store)
    (hbatch : ∀ d ∈ s.batch, doc.data.name ≠ d.data.name) :
    doc ∈ (finalFlush s).store := by
  unfold finalFlush
  split
  · exact hdoc
  · exact mem_upsertBatch_of_ne _ _ _ hdoc hbatch

/-- A document not yet deleted whose name was not imported passes the Mongo
filter of the deletion pass. -/
theorem selectedForDeletion_eq_true (imported : List String) (doc : StoredProduct)
    (hn : doc.data.name ∉ imported) (hd : doc.data.isDeleted = false) :
    selectedForDeletion imported doc = true := by
  unfold selectedForDeletion
  rw [hd]
  simp [hn]

/-- A document whose name was imported, or that is already flagged, fails the
Mongo filter of the deletion pass. -/
theorem selectedForDeletion_eq_false (imported : List String) (doc : StoredProduct)
    (h : doc.data.name ∈ imported ∨ doc.data.isDeleted = true) :
    selectedForDeletion imported doc = false := by
  unfold selectedForDeletion
  rcases h with h | h
  · simp [h]
  · simp [h]

/-- The Mongo filter passing implies its two conjuncts. -/
theorem selectedForDeletion_spec (imported : List String) (doc : StoredProduct)
    (h : selectedForDeletion imported doc = true) :
    doc.data.name ∉ imported ∧ doc.data.isDeleted = false := by
  unfold selectedForDeletion at h
  rw [Bool.and_eq_true] at h
  constructor
  · intro hm
    have hc : imported.contains doc.data.name = true := by simp [hm]
    rw [hc] at h
    exact absurd h.1 (by decide)
  · cases hdel : doc.data.isDeleted
    · rfl
    · rw [hdel] at h
      exact absurd h.2 (by decide)

/-- Document at position i of the store after the deletion pass. -/
theorem handleDeletionsWith_get (hasOrders : StoredProduct → Bool)
    (imported : List String) (store : List StoredProduct) (i : Nat)
    (hi : i < store.length) :
    (handleDeletionsWith hasOrders imported store).1.get? i
      = some (if selectedForDeletion imported (store.get ⟨i, hi⟩) &&
                 !hasOrders (store.get ⟨i, hi⟩)
              then flagDoc (store.get ⟨i, hi⟩) else store.get ⟨i, hi⟩) := by
  show (store.map _).get? i = _
  rw [List.get?_map, List.get?_eq_get hi]
  rfl

/-- A selected document with no orders is written back flagged. -/
theorem mem_handleDeletionsWith_writes (hasOrders : StoredProduct → Bool)
    (imported : List String) (store : List StoredProduct) (doc : StoredProduct)
    (hdoc : doc ∈ store)
    (hsel : (selectedForDeletion imported doc && !hasOrders doc) = true) :
    flagDoc doc ∈ (handleDeletionsWith hasOrders imported store).2 := by
  show flagDoc doc ∈ (store.filter _).map flagDoc
  exact List.mem_map_of_mem _ (List.mem_filter.mpr ⟨hdoc, hsel⟩)

/-- A selected document with no orders appears flagged in the resulting
store. -/
theorem mem_handleDeletionsWith_flagged (hasOrders : StoredProduct → Bool)
    (imported : List String) (store : List StoredProduct) (doc : StoredProduct)
    (hdoc : doc ∈ store)
    (hsel : (selectedForDeletion imported doc && !hasOrders doc) = true) :
    flagDoc doc ∈ (handleDeletionsWith hasOrders imported store).1 := by
  show flagDoc doc ∈ store.map fun e =>
    if selectedForDeletion imported e && !hasOrders e then flagDoc e else e
  have heq : flagDoc doc = (fun e =>
      if selectedForDeletion imported e && !hasOrders e then flagDoc e else e) doc := by
    simp [hsel]
  rw [heq]
  exact List.mem_map_of_mem _ hdoc

/-- C3: in the deletion pass, each stored document that is not yet flagged
and whose name is not among the imported names is checked against the
order-existence predicate: with no orders it ends flagged deleted, both in
the store and among the documents written back; with orders it is left
untouched; and a document whose name was imported during the run is never
changed. -/
theorem handleDeletions_order_check_spec (hasOrders : StoredProduct → Bool)
    (imported : List String) (store : List StoredProduct) (i : Nat)
    (hi : i < store.length) :
    ((store.get ⟨i, hi⟩).data.name ∉ imported →
     (store.get ⟨i, hi⟩).data.isDeleted = false →
     hasOrders (store.get ⟨i, hi⟩) = false →
       (handleDeletionsWith hasOrders imported store).1.get? i
          = some (flagDoc (store.get ⟨i, hi⟩)) ∧
       flagDoc (store.get ⟨i, hi⟩) ∈ (handleDeletionsWith hasOrders imported store).2) ∧
    ((store.get ⟨i, hi⟩).data.name ∉ imported →
     (store.get ⟨i, hi⟩).data.isDeleted = false →
     hasOrders (store.get ⟨i, hi⟩) = true →
       (handleDeletionsWith hasOrders imported store).1.get? i
          = some (store.get ⟨i, hi⟩)) ∧
    ((store.get ⟨i, hi⟩).data.name ∈ imported →
       (handleDeletionsWith hasOrders imported store).1.get? i
          = some (store.get ⟨i, hi⟩)) := by
  refine ⟨?_, ?_, ?_⟩
  · intro hn hd ho
    have hsel : (selectedForDeletion imported (store.get ⟨i, hi⟩) &&
        !hasOrders (store.get ⟨i, hi⟩)) = true := by
      rw [selectedForDeletion_eq_true imported _ hn hd, ho]
      rfl
    constructor
    · rw [handleDeletionsWith_get hasOrders imported store i hi, bif_pos _ _ hsel]
    · exact mem_handleDeletionsWith_writes hasOrders imported store _
        (store.get_mem i hi) hsel
  · intro hn hd ho
    have hsel : (selectedForDeletion imported (store.get ⟨i, hi⟩) &&
        !hasOrders (store.get ⟨i, hi⟩)) = false := by
      rw [ho]
      simp
    rw [handleDeletionsWith_get hasOrders imported store i hi, bif_neg _ _ hsel]
  · intro hn
    have hsel : (selectedForDeletion imported (store.get ⟨i, hi⟩) &&
        !hasOrders (store.get ⟨i, hi⟩)) = false := by
      rw [selectedForDeletion_eq_false imported _ (Or.inl hn)]
      rfl
    rw [handleDeletionsWith_get hasOrders imported store i hi, bif_neg _ _ hsel]

/-- Witness for C3 at a concrete store and order predicate. -/
theorem handleDeletions_order_check_spec_witness :
    (0 < [exOld].length) ∧
    ((([exOld].get ⟨0, by decide⟩).data.name ∉ ["Kept"] →
      (([exOld].get ⟨0, by decide⟩).data.isDeleted = false) →
      ((fun d => d.docId == "withOrders") ([exOld].get ⟨0, by decide⟩) = false) →
        (handleDeletionsWith (fun d => d.docId == "withOrders") ["Kept"] [exOld]).1.get? 0
           = some (flagDoc ([exOld].get ⟨0, by decide⟩)) ∧
        flagDoc ([exOld].get ⟨0, by decide⟩)
          ∈ (handleDeletionsWith (fun d => d.docId == "withOrders") ["Kept"] [exOld]).2) ∧
     (([exOld].get ⟨0, by decide⟩).data.name ∉ ["Kept"] →
      (([exOld].get ⟨0, by decide⟩).data.isDeleted = false) →
      ((fun d => d.docId == "withOrders") ([exOld].get ⟨0, by decide⟩) = true) →
        (handleDeletionsWith (fun d => d.docId == "withOrders") ["Kept"] [exOld]).1.get? 0
           = some ([exOld].get ⟨0, by decide⟩)) ∧
     (([exOld].get ⟨0, by decide⟩).data.name ∈ ["Kept"] →
        (handleDeletionsWith (fun d => d.docId == "withOrders") ["Kept"] [exOld]).1.get? 0
           = some ([exOld].get ⟨0, by decide⟩))) :=
  ⟨by decide,
    handleDeletions_order_check_spec (fun d => d.docId == "withOrders") ["Kept"]
      [exOld] 0 (by decide)⟩

/-- Every document is flag-only-modified by flagging. -/
theorem sameButDeleted_flagDoc (doc : StoredProduct) :
    sameButDeleted (flagDoc doc) doc :=
  ⟨rfl, rfl, rfl, rfl, rfl, rfl, rfl, rfl, rfl, rfl⟩

/-- Reflexivity of field agreement outside the deletion flag. -/
theorem sameButDeleted_refl (doc : StoredProduct) : sameButDeleted doc doc :=
  ⟨rfl, rfl, rfl, rfl, rfl, rfl, rfl, rfl, rfl, rfl⟩

/-- C10: the deletion pass preserves the store's length; every document of
the resulting store agrees with the original document at its position on
every field other than data.isDeleted; a document whose name was imported or
that was already flagged is returned exactly as stored; and every document
written back is a flagged copy of a stored document that was not previously
deleted, had no orders, and whose name was not imported. -/
theorem handleDeletions_frame (hasOrders : StoredProduct → Bool)
    (imported : List String) (store : List StoredProduct) :
    (handleDeletionsWith hasOrders imported store).1.length = store.length ∧
    (∀ i, ∀ hi : i < store.length, ∃ d,
        (handleDeletionsWith hasOrders imported store).1.get? i = some d ∧
        sameButDeleted d (store.get ⟨i, hi⟩)) ∧
    (∀ i, ∀ hi : i < store.length,
        (store.get ⟨i, hi⟩).data.name ∈ imported ∨
          (store.get ⟨i, hi⟩).data.isDeleted = true →
        (handleDeletionsWith hasOrders imported store).1.get? i
          = some (store.get ⟨i, hi⟩)) ∧
    (∀ w ∈ (handleDeletionsWith hasOrders imported store).2,
        w.data.isDeleted = true ∧ w.data.name ∉ imported ∧
        ∃ doc ∈ store, doc.data.isDeleted = false ∧ hasOrders doc = false ∧
          sameButDeleted w doc) := by
  refine ⟨List.length_map _ _, ?_, ?_, ?_⟩
  · intro i hi
    by_cases h : (selectedForDeletion imported (store.get ⟨i, hi⟩) &&
        !hasOrders (store.get ⟨i, hi⟩)) = true
    · refine ⟨flagDoc (store.get ⟨i, hi⟩), ?_, sameButDeleted_flagDoc _⟩
      rw [handleDeletionsWith_get hasOrders imported store i hi, bif_pos _ _ h]
    · have hf : (selectedForDeletion imported (store.get ⟨i, hi⟩) &&
          !hasOrders (store.get ⟨i, hi⟩)) = false := by
        cases hx : (selectedForDeletion imported (store.get ⟨i, hi⟩) &&
            !hasOrders (store.get ⟨i, hi⟩))
        · rfl
        · exact absurd hx h
      refine ⟨store.get ⟨i, hi⟩, ?_, sameButDeleted_refl _⟩
      rw [handleDeletionsWith_get hasOrders imported store i hi, bif_neg _ _ hf]
  · intro i hi hcase
    have hsel : (selectedForDeletion imported (store.get ⟨i, hi⟩) &&
        !hasOrders (store.get ⟨i, hi⟩)) = false := by
      rw [selectedForDeletion_eq_false imported _ hcase]
      rfl
    rw [handleDeletionsWith_get hasOrders imported store i hi, bif_neg _ _ hsel]
  · intro w hw
    have hw2 : w ∈ (store.filter fun doc =>
        selectedForDeletion imported doc && !hasOrders doc).map flagDoc := hw
    rcases List.mem_map.mp hw2 with ⟨doc, hdocf, rfl⟩
    rcases List.mem_filter.mp hdocf with ⟨hdoc, hp⟩
    rw [Bool.and_eq_true] at hp
    have hsel := selectedForDeletion_spec imported doc hp.1
    have hord : hasOrders doc = false := by
      have := hp.2
      cases hx : hasOrders doc
      · rfl
      · rw [hx] at this
        exact absurd this (by decide)
    exact ⟨rfl, hsel.1, doc, hdoc, hsel.2, hord, sameButDeleted_flagDoc doc⟩

/-- C9: the imported-name set of a run holds exactly the names of the
accepted drafts — a name is recorded only when its row passes both skip
guards and its draft enters the batch — and with the deletion flag enabled a
stored, not-yet-deleted product none of whose rows was accepted in the run is
selected by the reconciliation pass and, the stubbed order check returning
false, ends the run flagged deleted. -/
theorem imported_names_and_skipped_product_deleted
    (tf : Row → Except Unit ProductDraft) (rows : List Row)
    (store : List StoredProduct) (doc : StoredProduct) (hdoc : doc ∈ store)
    (hdel : doc.data.isDeleted = false)
    (hacc : doc.data.name ∉ acceptedNames tf rows) :
    (∀ m, m ∈ (importProducts tf true checkExistingOrders rows store).imported
        ↔ m ∈ acceptedNames tf rows) ∧
    flagDoc doc ∈ (importProducts tf true checkExistingOrders rows store).store := by
  have hsurv := runRows_store_survive tf rows (initState store) doc hdoc
    (by intro d hd; simp [initState] at hd) hacc
  have himp : ∀ m, m ∈ (runRows tf rows (initState store)).imported
      ↔ m ∈ acceptedNames tf rows := by
    intro m
    rw [runRows_imported_mem]
    simp [initState]
  constructor
  · intro m
    show m ∈ (finalFlush (runRows tf rows (initState store))).imported ↔ _
    rw [finalFlush_imported]
    exact himp m
  · show flagDoc doc ∈ (handleDeletionsWith checkExistingOrders
      (finalFlush (runRows tf rows (initState store))).imported
      (finalFlush (runRows tf rows (initState store))).store).1
    have hdoc2 : doc ∈ (finalFlush (runRows tf rows (initState store))).store :=
      finalFlush_store_mem _ doc hsurv.1 hsurv.2
    have hnotimp : doc.data.name
        ∉ (finalFlush (runRows tf rows (initState store))).imported := by
      rw [finalFlush_imported]
      intro hm
      exact hacc ((himp doc.data.name).mp hm)
    have hsel : (selectedForDeletion
        (finalFlush (runRows tf rows (initState store))).imported doc &&
        !checkExistingOrders doc) = true := by
      rw [selectedForDeletion_eq_true _ _ hnotimp hdel]
      rfl
    exact mem_handleDeletionsWith_flagged checkExistingOrders _ _ doc hdoc2 hsel

/-- Witness for C9: a run whose single row is skipped flags the previously
stored product. -/
theorem imported_names_and_skipped_product_deleted_witness :
    exOld ∈ [exOld] ∧ exOld.data.isDeleted = false ∧
    exOld.data.name ∉ acceptedNames (fun _ => Except.ok exDraft) [exRowNoMan] ∧
    ((∀ m, m ∈ (importProducts (fun _ => Except.ok exDraft) true
          checkExistingOrders [exRowNoMan] [exOld]).imported
        ↔ m ∈ acceptedNames (fun _ => Except.ok exDraft) [exRowNoMan]) ∧
     flagDoc exOld ∈ (importProducts (fun _ => Except.ok exDraft) true
        checkExistingOrders [exRowNoMan] [exOld]).store) :=
  ⟨by decide, by decide, by decide,
    imported_names_and_skipped_product_deleted (fun _ => Except.ok exDraft)
      [exRowNoMan] [exOld] exOld (by decide) (by decide) (by decide)⟩

end ProductImporter
